import Mathlib

/-!
Verification development for the `p-schema` request-validation and
sanitization library.

The embedding follows the two source modules:

* `src/sanitize.ts` — `clean` (trim, `javascript:` link removal, inline
  event-handler removal, single-pass HTML-tag stripping) and the recursive
  `deepClean` over nested JSON-like values.
* `src/index.ts` — the rule-string compiler (`basicValidators`,
  `applyParamRule`, `makeValidators`) and the `validate` middleware.

Validator chains built on `express-validator` are modelled as lists of
symbolic steps (`Step`); a separate interpreter (`runChain` / `runAll`)
gives them the library's execution semantics: an initial field read,
in-order execution, `bail` short-circuiting, `optional` skipping of
validators, and write-back of sanitized values into the record.

Numeric rule parameters are modelled over `Int` (the repository only ever
uses integer literals in rules); JavaScript's `NaN` and `undefined`
numeric corner values are represented by dedicated `JSNum` constructors.
-/

namespace PSchema

/-- ASCII whitespace as matched by the JavaScript `\s` class and `trim`
(real `\s` also covers further Unicode spaces; all inputs considered here
are ASCII). -/
def isWsJS (c : Char) : Bool :=
  c = ' ' || c = '\t' || c = '\n' || c = '\r' || c = '\x0b' || c = '\x0c'

/-- Drop leading JavaScript whitespace. -/
def trimL (l : List Char) : List Char := l.dropWhile isWsJS

/-- Drop trailing JavaScript whitespace. -/
def trimR (l : List Char) : List Char := (l.reverse.dropWhile isWsJS).reverse

/-- JS `String.prototype.trim` (ASCII fragment). -/
def trimStr (s : String) : String := String.mk (trimR (trimL s.data))

/-- Case-insensitive ASCII prefix match: on success returns the rest of
the input after the matched pattern. -/
def matchPrefCI : List Char → List Char → Option (List Char)
  | [], l => some l
  | _ :: _, [] => none
  | p :: ps, c :: cs => if p.toLower = c.toLower then matchPrefCI ps cs else none

/-- One attempt of the regex `javascript\s*:[^;\s]+;?` (case-insensitive)
at the head of the input; on success returns the input after the match. -/
def jsLinkTry (l : List Char) : Option (List Char) :=
  match matchPrefCI "javascript".data l with
  | none => none
  | some r1 =>
    match r1.dropWhile isWsJS with
    | ':' :: r3 =>
      let body := r3.takeWhile (fun c => !(c = ';' || isWsJS c))
      if body.isEmpty then none
      else
        match r3.drop body.length with
        | ';' :: r5 => some r5
        | r4 => some r4
    | _ => none

/-- Global regex replacement with the empty string: try a match at every
position, skipping matched spans; the fuel bounds the number of scan
steps (each step consumes at least one character, so the input length is
always enough fuel). -/
def scanStrip (tryM : List Char → Option (List Char)) : Nat → List Char → List Char
  | 0, l => l
  | _ + 1, [] => []
  | fuel + 1, c :: rest =>
    match tryM (c :: rest) with
    | some r => scanStrip tryM fuel r
    | none => c :: scanStrip tryM fuel rest

/-- `sanitized.replace(/javascript\s*:[^;\s]+;?/gi, "")`. -/
def jsLinkStrip (l : List Char) : List Char := scanStrip jsLinkTry l.length l

/-- `\w` — ASCII word character. -/
def isWordChar (c : Char) : Bool := c.isAlpha || c.isDigit || c = '_'

/-- One attempt of `on\w+=q[^q]*q` (case-insensitive) at the head of the
input, for quote character `q`. -/
def onAttrTry (q : Char) (l : List Char) : Option (List Char) :=
  match matchPrefCI "on".data l with
  | none => none
  | some r1 =>
    let w := r1.takeWhile isWordChar
    if w.isEmpty then none
    else
      match r1.drop w.length with
      | '=' :: c :: r3 =>
        if c = q then
          let body := r3.takeWhile (fun d => d ≠ q)
          match r3.drop body.length with
          | d :: r4 => if d = q then some r4 else none
          | [] => none
        else none
      | _ => none

/-- Global replacement of `(^|\s)on\w+=q[^q]*q` with the empty string:
the `^` alternative only applies at the very start (`atStart`), the `\s`
alternative consumes the whitespace character as part of the match. -/
def onAttrScan (q : Char) : Nat → Bool → List Char → List Char
  | 0, _, l => l
  | _ + 1, _, [] => []
  | fuel + 1, atStart, c :: rest =>
    if atStart then
      match onAttrTry q (c :: rest) with
      | some r => onAttrScan q fuel false r
      | none =>
        if isWsJS c then
          match onAttrTry q rest with
          | some r => onAttrScan q fuel false r
          | none => c :: onAttrScan q fuel false rest
        else c :: onAttrScan q fuel false rest
    else
      if isWsJS c then
        match onAttrTry q rest with
        | some r => onAttrScan q fuel false r
        | none => c :: onAttrScan q fuel false rest
      else c :: onAttrScan q fuel false rest

/-- `sanitized.replace(/<[^>]*>?/gm, "")` — single greedy left-to-right
pass; a `<` opens a match that runs to the next `>` (consumed if present)
or to the end of the string.  The output is not re-scanned. -/
def stripTagsFuel : Nat → List Char → List Char
  | 0, l => l
  | _ + 1, [] => []
  | fuel + 1, c :: rest =>
    if c = '<' then
      let inner := rest.takeWhile (fun d => d ≠ '>')
      match rest.drop inner.length with
      | '>' :: r => stripTagsFuel fuel r
      | r => stripTagsFuel fuel r
    else c :: stripTagsFuel fuel rest

/-- Tag stripping entry point. -/
def stripTags (l : List Char) : List Char := stripTagsFuel l.length l

/-- `clean` from `src/sanitize.ts`: trim, remove `javascript:` style
links, remove inline event handlers (double- then single-quoted), strip
HTML tags. -/
def clean (value : String) : String :=
  let sanitized := trimR (trimL value.data)
  let sanitized := jsLinkStrip sanitized
  let sanitized := onAttrScan '"' sanitized.length true sanitized
  let sanitized := onAttrScan '\'' sanitized.length true sanitized
  String.mk (stripTags sanitized)

/-- JSON-like value trees handled by `deepClean`. -/
inductive JVal where
  | jnull : JVal
  | jbool : Bool → JVal
  | jnum : Int → JVal
  | jstr : String → JVal
  | jarr : List JVal → JVal
  | jobj : List (String × JVal) → JVal

mutual

/-- `deepClean` from `src/sanitize.ts`: arrays are mapped over, objects
are rebuilt key by key, strings are passed through `clean`, all other
leaves are returned unchanged. -/
def deepClean : JVal → JVal
  | JVal.jarr items => JVal.jarr (deepCleanList items)
  | JVal.jobj fields => JVal.jobj (deepCleanFields fields)
  | JVal.jstr s => JVal.jstr (clean s)
  | v => v

/-- Element-wise `deepClean` over an array. -/
def deepCleanList : List JVal → List JVal
  | [] => []
  | x :: xs => deepClean x :: deepCleanList xs

/-- Entry-wise `deepClean` over an object's key/value pairs. -/
def deepCleanFields : List (String × JVal) → List (String × JVal)
  | [] => []
  | (k, v) :: xs => (k, deepClean v) :: deepCleanFields xs

end

/-- Scalar request-record values (the claims only exercise scalar
fields; containers are out of scope for the validation subsystem). -/
inductive Value where
  | undef : Value
  | null : Value
  | str : String → Value
  | num : Int → Value
  | bool : Bool → Value
  deriving DecidableEq, Repr

/-- A request record (`req.body`): association list from field names to
values; an absent key reads as `undefined`. -/
abbrev Record := List (String × Value)

/-- `req.body[field]` — first binding wins, absent keys are `undefined`. -/
def getField (rec : Record) (field : String) : Value :=
  match rec with
  | [] => Value.undef
  | kv :: rest => if kv.1 = field then kv.2 else getField rest field

/-- Write a field back into the record (replace the first binding, or
append a new one), as sanitization write-back does. -/
def setField (rec : Record) (field : String) (v : Value) : Record :=
  match rec with
  | [] => [(field, v)]
  | kv :: rest => if kv.1 = field then (field, v) :: rest else kv :: setField rest field v

/-- JavaScript numbers as they arise from `parseInt` / `Number` on rule
parameters: an integer, `NaN`, or `undefined` (a missing tuple slot). -/
inductive JSNum where
  | val : Int → JSNum
  | nan : JSNum
  | undef : JSNum
  deriving DecidableEq, Repr

/-- Numeral value of a digit list. -/
def digitsVal (l : List Char) : Nat := l.foldl (fun a c => a * 10 + (c.toNat - 48)) 0

/-- Whole-string signed decimal numeral (the integer fragment of the
`validator.js` float/int format; the repository only uses integer rule
parameters). -/
def strictNum (s : String) : Option Int :=
  match s.data with
  | [] => none
  | '-' :: rest =>
    if !rest.isEmpty && rest.all Char.isDigit then some (-(digitsVal rest : Int)) else none
  | '+' :: rest =>
    if !rest.isEmpty && rest.all Char.isDigit then some ((digitsVal rest : Int)) else none
  | l => if l.all Char.isDigit then some ((digitsVal l : Int)) else none

/-- JS `parseInt(s, 10)`: skip leading whitespace, optional sign, then a
maximal run of digits; `NaN` when no digit is found. -/
def parseIntTS (s : String) : JSNum :=
  let l := s.data.dropWhile isWsJS
  let sr : Bool × List Char :=
    match l with
    | '-' :: r => (true, r)
    | '+' :: r => (false, r)
    | r => (false, r)
  let ds := sr.2.takeWhile Char.isDigit
  if ds.isEmpty then JSNum.nan
  else JSNum.val (if sr.1 then -(digitsVal ds : Int) else (digitsVal ds : Int))

/-- JS `Number(s)` on a string: trim, empty string is `0`, otherwise a
whole-string numeral or `NaN`. -/
def numberTS (s : String) : JSNum :=
  let t := trimStr s
  if t = "" then JSNum.val 0
  else
    match strictNum t with
    | some n => JSNum.val n
    | none => JSNum.nan

/-- Template-literal rendering of a JS number (`${n}`). -/
def jsNumStr : JSNum → String
  | JSNum.val n => toString n
  | JSNum.nan => "NaN"
  | JSNum.undef => "undefined"

/-- `parts[i]` after `params.split(",").map(Number)`: `Number` of the
element when present, `undefined` when the tuple slot is missing. -/
def numAt (parts : List String) (i : Nat) : JSNum :=
  match parts.get? i with
  | some s => numberTS s
  | none => JSNum.undef

/-- JS `Array.prototype.includes` on strings. -/
def includes (l : List String) (x : String) : Bool :=
  match l with
  | [] => false
  | a :: rest => decide (a = x) || includes rest x

/-- Split a character list on every occurrence of `sep`
(JS `String.prototype.split` with a one-character separator). -/
def splitList (sep : Char) : List Char → List (List Char)
  | [] => [[]]
  | c :: rest =>
    let r := splitList sep rest
    if c = sep then [] :: r
    else
      match r with
      | h :: t => (c :: h) :: t
      | [] => [[c]]

/-- JS `s.split(sep)` for a one-character separator. -/
def jsSplit (s : String) (sep : Char) : List String :=
  (splitList sep s.data).map String.mk

/-- Split at the first occurrence of `t` (JS `indexOf` + two
`substring`s); `none` when `t` does not occur. -/
def splitCharFirst : List Char → Char → Option (List Char × List Char)
  | [], _ => none
  | c :: rest, t =>
    if c = t then some ([], rest)
    else
      match splitCharFirst rest t with
      | some (a, b) => some (c :: a, b)
      | none => none

/-- String-level first-occurrence split. -/
def jsSplitFirst (s : String) (t : Char) : Option (String × String) :=
  match splitCharFirst s.data t with
  | some (a, b) => some (String.mk a, String.mk b)
  | none => none

/-- JS `Array.prototype.join`. -/
def joinSep (sep : String) : List String → String
  | [] => ""
  | [x] => x
  | x :: xs => x ++ sep ++ joinSep sep xs

/-- `express-validator`'s stringification applied before standard
validators and sanitizers: `null`/`undefined` become the empty string. -/
def evToString : Value → String
  | Value.undef => ""
  | Value.null => ""
  | Value.str s => s
  | Value.num n => toString n
  | Value.bool b => if b then "true" else "false"

/-- JS `String(v)` as used inside custom validators (note
`String(undefined) = "undefined"`, unlike `evToString`). -/
def jsString : Value → String
  | Value.undef => "undefined"
  | Value.null => "null"
  | Value.str s => s
  | Value.num n => toString n
  | Value.bool b => if b then "true" else "false"

/-- JS `ToNumber` on scalars, for loose equality. -/
def toNumV : Value → JSNum
  | Value.undef => JSNum.nan
  | Value.null => JSNum.val 0
  | Value.str s => numberTS s
  | Value.num n => JSNum.val n
  | Value.bool b => JSNum.val (if b then 1 else 0)

/-- Numeric equality with `NaN` unequal to everything. -/
def jsNumEq : JSNum → JSNum → Bool
  | JSNum.val a, JSNum.val b => decide (a = b)
  | _, _ => false

/-- JS loose equality `==` restricted to the scalar values of `Value`. -/
def jsLooseEq (a b : Value) : Bool :=
  match a, b with
  | Value.undef, Value.undef => true
  | Value.undef, Value.null => true
  | Value.null, Value.undef => true
  | Value.null, Value.null => true
  | Value.undef, _ => false
  | _, Value.undef => false
  | Value.null, _ => false
  | _, Value.null => false
  | Value.str x, Value.str y => decide (x = y)
  | x, y => jsNumEq (toNumV x) (toNumV y)

/-- `value === undefined || value === "" || value === null` — the
absence test used by the cross-field rules. -/
def emptyish (v : Value) : Bool :=
  v = Value.undef || v = Value.str "" || v = Value.null

/-- `rawValue === "true" ? true : rawValue === "false" ? false :
rawValue` — the comparison value of the conditional rules. -/
def expectedOf (raw : String) : Value :=
  if raw = "true" then Value.bool true
  else if raw = "false" then Value.bool false
  else Value.str raw

/-- The custom predicates installed by `applyParamRule` (`in`, `same`,
`required_if`, `required_unless`, `prohibited_if`) plus caller-supplied
custom rules. -/
inductive CustomPred where
  | sameAs (other : String)
  | requiredIf (other raw : String)
  | requiredUnless (other raw : String)
  | prohibitedIf (other raw : String)
  | inList (values : List String)
  | external (p : Value → Record → Bool)

/-- Symbolic checks: the `express-validator` validators invoked by the
compiler.  The verdicts of the library's heavyweight format predicates
(email, URL, JSON, UUID) and of regex matching are external to this
repository and are not involved in any claim; they are modelled as
passing (see `evalCheck`). -/
inductive Check where
  | notEmpty
  | isEmail
  | isString
  | isInt
  | isFloatAny
  | isBoolean
  | isURL
  | isArray
  | isObject
  | isJSON
  | isUUID
  | isAlpha
  | isAlphanumeric
  | isFloatMin (mn : JSNum)
  | isFloatMax (mx : JSNum)
  | isFloatBetween (mn mx : JSNum)
  | isLengthMin (mn : JSNum)
  | isLengthMax (mx : JSNum)
  | isLengthBetween (mn mx : JSNum)
  | matchesPat (pat : String)
  | custom (p : CustomPred)

/-- The sanitizers installed by the compiler: `.trim()` (from the `in`
rule) and the `default` custom sanitizer. -/
inductive Sanitizer where
  | trimSan
  | defaultTo (value : String)

/-- One element of a compiled validation chain: a validator with its
failure message, a `bail()` marker, a sanitizer, or an
`optional()`/`optional({nullable: true})` marker. -/
inductive Step where
  | check (c : Check) (msg : String)
  | bailStep
  | sanitizeStep (s : Sanitizer)
  | optionalStep (nullable : Bool)

/-- `isFloat` bound test against an explicitly passed option (a `NaN` or
`undefined` bound makes the library's comparison false). -/
def jsGeF (x : Int) : JSNum → Bool
  | JSNum.val k => decide (k ≤ x)
  | _ => false

/-- Upper-bound counterpart of `jsGeF`. -/
def jsLeF (x : Int) : JSNum → Bool
  | JSNum.val k => decide (x ≤ k)
  | _ => false

/-- `isLength` lower bound: a missing (`undefined`) option falls back to
the default `0`, a `NaN` bound fails every comparison. -/
def lenGe (n : Nat) : JSNum → Bool
  | JSNum.val k => decide (k ≤ (n : Int))
  | JSNum.nan => false
  | JSNum.undef => true

/-- `isLength` upper bound: a missing option means unbounded. -/
def lenLe (n : Nat) : JSNum → Bool
  | JSNum.val k => decide ((n : Int) ≤ k)
  | JSNum.nan => false
  | JSNum.undef => true

/-- Semantics of the custom predicates (the closures in
`applyParamRule`); `true` means the check passes. -/
def evalCustom : CustomPred → Value → Record → Bool
  | CustomPred.sameAs other, v, rec => decide (v = getField rec other)
  | CustomPred.requiredIf other raw, v, rec =>
    !(jsLooseEq (getField rec other) (expectedOf raw) && emptyish v)
  | CustomPred.requiredUnless other raw, v, rec =>
    !(!jsLooseEq (getField rec other) (expectedOf raw) && emptyish v)
  | CustomPred.prohibitedIf other raw, v, rec =>
    !(jsLooseEq (getField rec other) (expectedOf raw) && !emptyish v)
  | CustomPred.inList values, v, _ => includes values (trimStr (jsString v))
  | CustomPred.external p, v, rec => p v rec

/-- Semantics of the symbolic checks on the current field value. -/
def evalCheck (c : Check) (v : Value) (rec : Record) : Bool :=
  match c with
  | Check.notEmpty => !(evToString v).isEmpty
  | Check.isEmail => true
  | Check.isString => (match v with | Value.str _ => true | _ => false)
  | Check.isInt => (strictNum (evToString v)).isSome
  | Check.isFloatAny => (strictNum (evToString v)).isSome
  | Check.isBoolean =>
    let s := evToString v
    s = "true" || s = "false" || s = "0" || s = "1"
  | Check.isURL => true
  | Check.isArray => false
  | Check.isObject => false
  | Check.isJSON => true
  | Check.isUUID => true
  | Check.isAlpha =>
    let l := (evToString v).data
    !l.isEmpty && l.all Char.isAlpha
  | Check.isAlphanumeric =>
    let l := (evToString v).data
    !l.isEmpty && l.all Char.isAlphanum
  | Check.isFloatMin mn =>
    (match strictNum (evToString v) with
     | some x => jsGeF x mn
     | none => false)
  | Check.isFloatMax mx =>
    (match strictNum (evToString v) with
     | some x => jsLeF x mx
     | none => false)
  | Check.isFloatBetween mn mx =>
    (match strictNum (evToString v) with
     | some x => jsGeF x mn && jsLeF x mx
     | none => false)
  | Check.isLengthMin mn => lenGe (evToString v).length mn
  | Check.isLengthMax mx => lenLe (evToString v).length mx
  | Check.isLengthBetween mn mx =>
    lenGe (evToString v).length mn && lenLe (evToString v).length mx
  | Check.matchesPat _ => true
  | Check.custom p => evalCustom p v rec

/-- Semantics of the sanitizers (standard sanitizers stringify first;
the `default` custom sanitizer sees the raw value). -/
def evalSan : Sanitizer → Value → Value
  | Sanitizer.trimSan, v => Value.str (trimStr (evToString v))
  | Sanitizer.defaultTo p, v =>
    if v = Value.undef ∨ v = Value.null ∨ v = Value.str "" then Value.str p else v

/-- The map of basic rules from `src/index.ts` (`basicValidators`):
rule name to chain transformer, `none` for unknown names. -/
def basicValidators (rule : String) : Option (List Step → String → List Step) :=
  if rule = "required" then
    some (fun c f => c ++ [Step.check Check.notEmpty (f ++ " is required"), Step.bailStep])
  else if rule = "optional" then some (fun c _ => c ++ [Step.optionalStep false])
  else if rule = "nullable" then some (fun c _ => c ++ [Step.optionalStep true])
  else if rule = "email" then
    some (fun c f => c ++ [Step.check Check.isEmail (f ++ " must be a valid email")])
  else if rule = "string" then
    some (fun c f => c ++ [Step.check Check.isString (f ++ " must be a string")])
  else if rule = "integer" then
    some (fun c f => c ++ [Step.check Check.isInt (f ++ " must be an integer")])
  else if rule = "numeric" then
    some (fun c f => c ++ [Step.check Check.isFloatAny (f ++ " must be numeric")])
  else if rule = "boolean" then
    some (fun c f => c ++ [Step.check Check.isBoolean (f ++ " must be true or false")])
  else if rule = "url" then
    some (fun c f => c ++ [Step.check Check.isURL (f ++ " must be a valid URL")])
  else if rule = "array" then
    some (fun c f => c ++ [Step.check Check.isArray (f ++ " must be an array")])
  else if rule = "object" then
    some (fun c f => c ++ [Step.check Check.isObject (f ++ " must be an object")])
  else if rule = "json" then
    some (fun c f => c ++ [Step.check Check.isJSON (f ++ " must be valid JSON")])
  else if rule = "uuid" then
    some (fun c f => c ++ [Step.check Check.isUUID (f ++ " must be a valid UUID")])
  else if rule = "alpha" then
    some (fun c f => c ++ [Step.check Check.isAlpha (f ++ " must contain only letters")])
  else if rule = "alphanumeric" then
    some (fun c f =>
      c ++ [Step.check Check.isAlphanumeric (f ++ " must contain only letters & numbers")])
  else none

/-- `applyParamRule` from `src/index.ts`: dispatch on the rule name with
the raw parameter string; `allRules` is the field's full token list.
In the source the `required_if`/`required_unless`/`prohibited_if`
failure messages interpolate `${expected}`, which always renders as the
raw parameter text (`String(true) = "true"`), so the raw text is used
directly here. -/
def applyParamRule (chain : List Step) (field : String) (ruleName : String)
    (params : String) (allRules : List String) : List Step :=
  if ruleName = "min" then
    let mn := parseIntTS params
    if includes allRules "integer" || includes allRules "numeric" then
      chain ++ [Step.check (Check.isFloatMin mn) (field ++ " must be at least " ++ jsNumStr mn)]
    else
      chain ++ [Step.check (Check.isLengthMin mn)
        (field ++ " must be at least " ++ jsNumStr mn ++ " characters")]
  else if ruleName = "max" then
    let mx := parseIntTS params
    if includes allRules "integer" || includes allRules "numeric" then
      chain ++ [Step.check (Check.isFloatMax mx) (field ++ " must be at most " ++ jsNumStr mx)]
    else
      chain ++ [Step.check (Check.isLengthMax mx)
        (field ++ " must be at most " ++ jsNumStr mx ++ " characters")]
  else if ruleName = "length" then
    let parts := jsSplit params ','
    let mn := numAt parts 0
    let mx := numAt parts 1
    chain ++ [Step.check (Check.isLengthBetween mn mx)
      (field ++ " must be between " ++ jsNumStr mn ++ " and " ++ jsNumStr mx ++ " characters")]
  else if ruleName = "between" then
    let parts := jsSplit params ','
    let mn := numAt parts 0
    let mx := numAt parts 1
    if includes allRules "integer" || includes allRules "numeric" then
      chain ++ [Step.check (Check.isFloatBetween mn mx)
        (field ++ " must be between " ++ jsNumStr mn ++ " and " ++ jsNumStr mx)]
    else
      chain ++ [Step.check (Check.isLengthBetween mn mx)
        (field ++ " must be between " ++ jsNumStr mn ++ " and " ++ jsNumStr mx ++ " characters")]
  else if ruleName = "in" then
    let values := (jsSplit params ',').map trimStr
    chain ++ [Step.sanitizeStep Sanitizer.trimSan,
      Step.check (Check.custom (CustomPred.inList values))
        (field ++ " must be one of: " ++ joinSep ", " values)]
  else if ruleName = "regex" then
    let pd := params.data
    let pat :=
      if pd.head? = some '/' && pd.getLast? = some '/' then String.mk (pd.drop 1).dropLast
      else params
    chain ++ [Step.check (Check.matchesPat pat) (field ++ " format is invalid")]
  else if ruleName = "same" then
    chain ++ [Step.check (Check.custom (CustomPred.sameAs params))
      (field ++ " must match " ++ params)]
  else if ruleName = "default" then
    chain ++ [Step.sanitizeStep (Sanitizer.defaultTo params)]
  else if ruleName = "required_if" then
    match jsSplitFirst params ',' with
    | none => chain
    | some (otherField, rawValue) =>
      chain ++ [Step.check (Check.custom (CustomPred.requiredIf otherField rawValue))
        (field ++ " is required when " ++ otherField ++ " is " ++ rawValue)]
  else if ruleName = "required_unless" then
    match jsSplitFirst params ',' with
    | none => chain
    | some (otherField, rawValue) =>
      chain ++ [Step.check (Check.custom (CustomPred.requiredUnless otherField rawValue))
        (field ++ " is required unless " ++ otherField ++ " is " ++ rawValue)]
  else if ruleName = "prohibited_if" then
    match jsSplitFirst params ',' with
    | none => chain
    | some (otherField, rawValue) =>
      chain ++ [Step.check (Check.custom (CustomPred.prohibitedIf otherField rawValue))
        (field ++ " is not allowed when " ++ otherField ++ " is " ++ rawValue)]
  else chain

/-- One item of a field's rule specification: a rule-string token or a
caller-supplied custom predicate. -/
inductive RuleItem where
  | str (s : String)
  | custom (p : Value → Record → Bool)

/-- A field's raw rule specification: a pipe-delimited string or a list
of items. -/
inductive RuleSpec where
  | str (s : String)
  | list (items : List RuleItem)

/-- A rule configuration: field names with their specifications, in
declaration order. -/
abbrev RuleConfig := List (String × RuleSpec)

/-- String tokens of a rule-item list, in order. -/
def strTokens : List RuleItem → List String
  | [] => []
  | RuleItem.str s :: rest => s :: strTokens rest
  | RuleItem.custom _ :: rest => strTokens rest

/-- Custom predicates of a rule-item list, in order. -/
def customFns : List RuleItem → List (Value → Record → Bool)
  | [] => []
  | RuleItem.str _ :: rest => customFns rest
  | RuleItem.custom p :: rest => p :: customFns rest

/-- The per-token dispatch in `makeValidators`: a token with `:` goes to
`applyParamRule` (split at the first `:`), other tokens are looked up in
`basicValidators` and silently skipped when unknown. -/
def applyRuleToken (field : String) (allRules : List String)
    (chain : List Step) (rule : String) : List Step :=
  match jsSplitFirst rule ':' with
  | some (ruleName, params) => applyParamRule chain field ruleName params allRules
  | none =>
    match basicValidators rule with
    | some f => f chain field
    | none => chain

/-- A caller-supplied custom rule becomes a `.custom(...)` step; with no
`withMessage`, the library reports the default message. -/
def mkCustomStep (p : Value → Record → Bool) : Step :=
  Step.check (Check.custom (CustomPred.external p)) "Invalid value"

/-- Compile one field's specification into a chain: normalize to string
tokens (and, for list input, custom predicates), fold the string tokens
through `applyRuleToken`, then append the custom rules. -/
def compileField (field : String) (spec : RuleSpec) : List Step :=
  let fieldRules :=
    match spec with
    | RuleSpec.str s => jsSplit s '|'
    | RuleSpec.list items => strTokens items
  let customRules :=
    match spec with
    | RuleSpec.str _ => []
    | RuleSpec.list items => customFns items
  let chain := fieldRules.foldl (applyRuleToken field fieldRules) []
  customRules.foldl (fun c p => c ++ [mkCustomStep p]) chain

/-- `makeValidators` from `src/index.ts`: one compiled chain per field,
in declaration order. -/
def makeValidators (rules : RuleConfig) : List (String × List Step) :=
  rules.map (fun fr => (fr.1, compileField fr.1 fr.2))

/-- State of one chain run: current (possibly sanitized) value, the
messages collected so far, whether `bail()` has fired, and whether any
sanitizer ran (so the value is written back). -/
structure ChainState where
  value : Value
  errors : List String
  bailed : Bool
  mutated : Bool

/-- Execute one chain element.  After an activated `bail()` the rest of
the chain is skipped; when `optional()` applies (`skip`), validators are
skipped but sanitizers still run. -/
def runStep (skip : Bool) (rec : Record) (st : ChainState) (s : Step) : ChainState :=
  if st.bailed then st
  else
    match s with
    | Step.check c msg =>
      if skip then st
      else if evalCheck c st.value rec then st
      else ChainState.mk st.value (st.errors ++ [msg]) st.bailed st.mutated
    | Step.bailStep =>
      if st.errors.isEmpty then st else ChainState.mk st.value st.errors true st.mutated
    | Step.sanitizeStep sn => ChainState.mk (evalSan sn st.value) st.errors st.bailed true
    | Step.optionalStep _ => st

/-- Fold step for `optionalFlag`. -/
def optUpd (acc : Option Bool) (s : Step) : Option Bool :=
  match s with
  | Step.optionalStep b => some b
  | _ => acc

/-- The chain's effective `optional` marker (the last call wins), with
its `nullable` flag. -/
def optionalFlag (steps : List Step) : Option Bool :=
  steps.foldl optUpd none

/-- Run one compiled chain against a record: read the field, decide
whether `optional` skips the validators, execute the steps in order, and
write the sanitized value back when a sanitizer ran. -/
def runChain (field : String) (steps : List Step) (rec : Record) :
    List String × Record :=
  let v := getField rec field
  let skip :=
    match optionalFlag steps with
    | some nullable => decide (v = Value.undef) || (nullable && decide (v = Value.null))
    | none => false
  let final := steps.foldl (runStep skip rec) (ChainState.mk v [] false false)
  (final.errors, if final.mutated then setField rec field final.value else rec)

/-- Run every field's chain in declaration order, accumulating messages
and threading the (possibly sanitized) record. -/
def runAll (vs : List (String × List Step)) (rec : Record) : List String × Record :=
  vs.foldl
    (fun acc fv =>
      let r := runChain fv.1 fv.2 acc.2
      (acc.1 ++ r.1, r.2))
    ([], rec)

/-- Result of the `validate` middleware: pass the request on, or answer
with a status code and the collected messages. -/
inductive Outcome where
  | next : Outcome
  | reject : Nat → List String → Outcome
  deriving DecidableEq, Repr

/-- `validate` from `src/index.ts`: `422` with all messages when any
validation failed, otherwise `next()`. -/
def validate (errors : List String) : Outcome :=
  if errors.isEmpty then Outcome.next else Outcome.reject 422 errors

/-! ## Helper lemmas -/

theorem dropWhile_dropWhile (p : Char → Bool) (l : List Char) :
    (l.dropWhile p).dropWhile p = l.dropWhile p := by
  induction l with
  | nil => rfl
  | cons a l ih => by_cases h : p a <;> simp [List.dropWhile_cons, h, ih]

theorem dropWhile_suffix_exists (p : Char → Bool) (l : List Char) :
    ∃ t, l = t ++ l.dropWhile p := by
  induction l with
  | nil => exact ⟨[], rfl⟩
  | cons a l ih =>
    by_cases h : p a
    · obtain ⟨t, ht⟩ := ih
      exact ⟨a :: t, by simp [List.dropWhile_cons, h]; exact ht⟩
    · exact ⟨[], by simp [List.dropWhile_cons, h]⟩

theorem head?_dropWhile_false (p : Char → Bool) (l : List Char) (a : Char)
    (h : (l.dropWhile p).head? = some a) : p a = false := by
  induction l with
  | nil => simp at h
  | cons b l ih =>
    by_cases hb : p b
    · exact ih (by simpa [List.dropWhile_cons, hb] using h)
    · simp [List.dropWhile_cons, hb] at h
      simpa [← h] using hb

theorem trimR_trimR (l : List Char) : trimR (trimR l) = trimR l := by
  unfold trimR
  rw [List.reverse_reverse, dropWhile_dropWhile]

theorem trimL_trimR_trimL (l : List Char) :
    trimL (trimR (trimL l)) = trimR (trimL l) := by
  rcases hE : trimR (trimL l) with _ | ⟨a, rest⟩
  · rfl
  · obtain ⟨t, ht⟩ := dropWhile_suffix_exists isWsJS (trimL l).reverse
    have hy : trimL l = trimR (trimL l) ++ t.reverse := by
      conv_lhs => rw [← List.reverse_reverse (trimL l), ht, List.reverse_append]
      rfl
    have hh2 : (trimL l).head? = some a := by
      rw [hy, hE]
      rfl
    have hpa : isWsJS a = false :=
      head?_dropWhile_false isWsJS l a (by simpa [trimL] using hh2)
    simp [trimL, List.dropWhile_cons, hpa]

theorem trimCore_idem (l : List Char) :
    trimR (trimL (trimR (trimL l))) = trimR (trimL l) := by
  rw [trimL_trimR_trimL, trimR_trimR]

theorem trimStr_idem (s : String) : trimStr (trimStr s) = trimStr s := by
  unfold trimStr
  rw [show (String.mk (trimR (trimL s.data))).data = trimR (trimL s.data) from rfl]
  rw [trimCore_idem]

theorem includes_iff_mem (l : List String) (x : String) :
    includes l x = true ↔ x ∈ l := by
  induction l with
  | nil => simp [includes]
  | cons a l ih =>
    simp [includes, ih]
    constructor
    · rintro (h | h)
      · exact Or.inl h.symm
      · exact Or.inr h
    · rintro (h | h)
      · exact Or.inl h.symm
      · exact Or.inr h

theorem includes_congr_of_perm (A B : List String) (hp : A.Perm B) (x : String) :
    includes A x = includes B x := by
  have h : includes A x = true ↔ includes B x = true := by
    rw [includes_iff_mem, includes_iff_mem]
    exact hp.mem_iff
  cases hA : includes A x <;> cases hB : includes B x <;> simp_all

theorem includes_middle (l₁ l₂ : List String) (r x : String) (h : r ≠ x) :
    includes (l₁ ++ r :: l₂) x = includes (l₁ ++ l₂) x := by
  induction l₁ with
  | nil => simp [includes, h]
  | cons a l ih => simp [includes, ih]

theorem strTokens_map_str (l : List String) :
    strTokens (l.map RuleItem.str) = l := by
  induction l with
  | nil => rfl
  | cons a l ih => simp [strTokens, ih]

theorem customFns_map_str (l : List String) :
    customFns (l.map RuleItem.str) = [] := by
  induction l with
  | nil => rfl
  | cons a l ih => simp [customFns, ih]

theorem foldl_mkCustomStep (ps : List (Value → Record → Bool)) (c : List Step) :
    ps.foldl (fun c p => c ++ [mkCustomStep p]) c = c ++ ps.map mkCustomStep := by
  induction ps generalizing c with
  | nil => simp
  | cons p ps ih => simp [ih]

/-- Is this step an `optional()` marker? -/
def Step.isOptional : Step → Bool
  | Step.optionalStep _ => true
  | _ => false

/-- No step of the list is an `optional()` marker. -/
def noOpt (l : List Step) : Bool := l.all (fun s => ! s.isOptional)

theorem noOpt_append (a b : List Step) (ha : noOpt a = true) (hb : noOpt b = true) :
    noOpt (a ++ b) = true := by
  simp [noOpt] at *
  exact ⟨ha, hb⟩

theorem optionalFlag_eq_none (steps : List Step) (h : noOpt steps = true) :
    optionalFlag steps = none := by
  have key : ∀ (l : List Step) (acc : Option Bool), noOpt l = true →
      l.foldl optUpd acc = acc := by
    intro l
    induction l with
    | nil => intro acc _; rfl
    | cons a l ih =>
      intro acc h
      simp [noOpt, List.all_cons] at h
      have ha := h.1
      have hl := h.2
      have : optUpd acc a = acc := by
        cases a <;> simp_all [optUpd, Step.isOptional]
      rw [List.foldl_cons, this]
      exact ih acc (by simpa [noOpt] using hl)
  exact key steps none h

theorem foldl_runStep_bailed (skip : Bool) (rec : Record) (steps : List Step)
    (st : ChainState) (h : st.bailed = true) :
    steps.foldl (runStep skip rec) st = st := by
  induction steps with
  | nil => rfl
  | cons a l ih =>
    rw [List.foldl_cons]
    rw [show runStep skip rec st a = st from by simp [runStep, h]]
    exact ih

theorem applyParamRule_extra (c : List Step) (f r p : String) (A : List String) :
    ∃ e, applyParamRule c f r p A = c ++ e ∧ noOpt e = true := by
  unfold applyParamRule
  by_cases h1 : r = "min"
  · rw [if_pos h1]; split <;> exact ⟨_, rfl, rfl⟩
  rw [if_neg h1]
  by_cases h2 : r = "max"
  · rw [if_pos h2]; split <;> exact ⟨_, rfl, rfl⟩
  rw [if_neg h2]
  by_cases h3 : r = "length"
  · rw [if_pos h3]; exact ⟨_, rfl, rfl⟩
  rw [if_neg h3]
  by_cases h4 : r = "between"
  · rw [if_pos h4]; split <;> exact ⟨_, rfl, rfl⟩
  rw [if_neg h4]
  by_cases h5 : r = "in"
  · rw [if_pos h5]; exact ⟨_, rfl, rfl⟩
  rw [if_neg h5]
  by_cases h6 : r = "regex"
  · rw [if_pos h6]; exact ⟨_, rfl, rfl⟩
  rw [if_neg h6]
  by_cases h7 : r = "same"
  · rw [if_pos h7]; exact ⟨_, rfl, rfl⟩
  rw [if_neg h7]
  by_cases h8 : r = "default"
  · rw [if_pos h8]; exact ⟨_, rfl, rfl⟩
  rw [if_neg h8]
  by_cases h9 : r = "required_if"
  · rw [if_pos h9]
    rcases hs : jsSplitFirst p ',' with _ | ⟨o, rv⟩ <;> simp only [hs]
    · exact ⟨[], by simp, rfl⟩
    · exact ⟨_, rfl, rfl⟩
  rw [if_neg h9]
  by_cases h10 : r = "required_unless"
  · rw [if_pos h10]
    rcases hs : jsSplitFirst p ',' with _ | ⟨o, rv⟩ <;> simp only [hs]
    · exact ⟨[], by simp, rfl⟩
    · exact ⟨_, rfl, rfl⟩
  rw [if_neg h10]
  by_cases h11 : r = "prohibited_if"
  · rw [if_pos h11]
    rcases hs : jsSplitFirst p ',' with _ | ⟨o, rv⟩ <;> simp only [hs]
    · exact ⟨[], by simp, rfl⟩
    · exact ⟨_, rfl, rfl⟩
  rw [if_neg h11]
  exact ⟨[], by simp, rfl⟩

theorem applyRuleToken_extra (f : String) (A : List String) (c : List Step) (rule : String)
    (hopt : rule ≠ "optional") (hnul : rule ≠ "nullable") :
    ∃ e, applyRuleToken f A c rule = c ++ e ∧ noOpt e = true := by
  unfold applyRuleToken
  rcases hs : jsSplitFirst rule ':' with _ | ⟨n, pr⟩ <;> simp only [hs]
  · unfold basicValidators
    by_cases h1 : rule = "required"
    · rw [if_pos h1]; exact ⟨_, rfl, rfl⟩
    rw [if_neg h1]
    rw [if_neg hopt]
    rw [if_neg hnul]
    by_cases h4 : rule = "email"
    · rw [if_pos h4]; exact ⟨_, rfl, rfl⟩
    rw [if_neg h4]
    by_cases h5 : rule = "string"
    · rw [if_pos h5]; exact ⟨_, rfl, rfl⟩
    rw [if_neg h5]
    by_cases h6 : rule = "integer"
    · rw [if_pos h6]; exact ⟨_, rfl, rfl⟩
    rw [if_neg h6]
    by_cases h7 : rule = "numeric"
    · rw [if_pos h7]; exact ⟨_, rfl, rfl⟩
    rw [if_neg h7]
    by_cases h8 : rule = "boolean"
    · rw [if_pos h8]; exact ⟨_, rfl, rfl⟩
    rw [if_neg h8]
    by_cases h9 : rule = "url"
    · rw [if_pos h9]; exact ⟨_, rfl, rfl⟩
    rw [if_neg h9]
    by_cases h10 : rule = "array"
    · rw [if_pos h10]; exact ⟨_, rfl, rfl⟩
    rw [if_neg h10]
    by_cases h11 : rule = "object"
    · rw [if_pos h11]; exact ⟨_, rfl, rfl⟩
    rw [if_neg h11]
    by_cases h12 : rule = "json"
    · rw [if_pos h12]; exact ⟨_, rfl, rfl⟩
    rw [if_neg h12]
    by_cases h13 : rule = "uuid"
    · rw [if_pos h13]; exact ⟨_, rfl, rfl⟩
    rw [if_neg h13]
    by_cases h14 : rule = "alpha"
    · rw [if_pos h14]; exact ⟨_, rfl, rfl⟩
    rw [if_neg h14]
    by_cases h15 : rule = "alphanumeric"
    · rw [if_pos h15]; exact ⟨_, rfl, rfl⟩
    rw [if_neg h15]
    exact ⟨[], by simp, rfl⟩
  · exact applyParamRule_extra c f n pr A

theorem foldl_applyRuleToken_extra (f : String) (A : List String) (toks : List String)
    (hopt : "optional" ∉ toks) (hnul : "nullable" ∉ toks) (c : List Step) :
    ∃ e, toks.foldl (applyRuleToken f A) c = c ++ e ∧ noOpt e = true := by
  induction toks generalizing c with
  | nil => exact ⟨[], by simp, rfl⟩
  | cons t ts ih =>
    have ht1 : t ≠ "optional" := fun he => hopt (he ▸ List.mem_cons_self t ts)
    have ht2 : t ≠ "nullable" := fun he => hnul (he ▸ List.mem_cons_self t ts)
    obtain ⟨e1, he1, hn1⟩ := applyRuleToken_extra f A c t ht1 ht2
    obtain ⟨e2, he2, hn2⟩ :=
      ih (fun hm => hopt (List.mem_cons_of_mem t hm)) (fun hm => hnul (List.mem_cons_of_mem t hm))
        (c ++ e1)
    exact ⟨e1 ++ e2, by rw [List.foldl_cons, he1, he2, List.append_assoc],
      noOpt_append e1 e2 hn1 hn2⟩

theorem applyParamRule_congr (c : List Step) (f r p : String) (A B : List String)
    (hi : includes A "integer" = includes B "integer")
    (hn : includes A "numeric" = includes B "numeric") :
    applyParamRule c f r p A = applyParamRule c f r p B := by
  unfold applyParamRule
  rw [hi, hn]

theorem applyRuleToken_congr (f : String) (A B : List String)
    (hi : includes A "integer" = includes B "integer")
    (hn : includes A "numeric" = includes B "numeric")
    (c : List Step) (rule : String) :
    applyRuleToken f A c rule = applyRuleToken f B c rule := by
  unfold applyRuleToken
  rcases hs : jsSplitFirst rule ':' with _ | ⟨n, pr⟩
  · rfl
  · exact applyParamRule_congr c f n pr A B hi hn

theorem foldl_applyRuleToken_congr (f : String) (A B : List String)
    (hi : includes A "integer" = includes B "integer")
    (hn : includes A "numeric" = includes B "numeric")
    (toks : List String) (c : List Step) :
    toks.foldl (applyRuleToken f A) c = toks.foldl (applyRuleToken f B) c := by
  induction toks generalizing c with
  | nil => rfl
  | cons t ts ih =>
    rw [List.foldl_cons, List.foldl_cons, applyRuleToken_congr f A B hi hn c t, ih]

theorem splitCharFirst_append (l₁ l₂ : List Char) (t : Char) (h : t ∉ l₁) :
    splitCharFirst (l₁ ++ t :: l₂) t = some (l₁, l₂) := by
  induction l₁ with
  | nil => simp [splitCharFirst]
  | cons a l ih =>
    have ha : a ≠ t := fun he => h (he ▸ List.mem_cons_self a l)
    have ih2 := ih (fun hm => h (List.mem_cons_of_mem a hm))
    simp [splitCharFirst, ha, ih2]

theorem jsSplitFirst_requiredIf (p : String) :
    jsSplitFirst ("required_if:" ++ p) ':' = some ("required_if", p) := by
  unfold jsSplitFirst
  rw [show ("required_if:" ++ p).data = "required_if".data ++ ':' :: p.data from rfl]
  rw [splitCharFirst_append "required_if".data p.data ':' (by decide)]

theorem jsSplitFirst_inRule (p : String) :
    jsSplitFirst ("in:" ++ p) ':' = some ("in", p) := by
  unfold jsSplitFirst
  rw [show ("in:" ++ p).data = "in".data ++ ':' :: p.data from rfl]
  rw [splitCharFirst_append "in".data p.data ':' (by decide)]

theorem applyParamRule_requiredIf_noComma (c : List Step) (f p : String) (A : List String)
    (h : jsSplitFirst p ',' = none) :
    applyParamRule c f "required_if" p A = c := by
  have e : applyParamRule c f "required_if" p A =
      (match jsSplitFirst p ',' with
       | none => c
       | some (o, rv) =>
         c ++ [Step.check (Check.custom (CustomPred.requiredIf o rv))
           (f ++ " is required when " ++ o ++ " is " ++ rv)]) := rfl
  rw [e, h]

theorem applyParamRule_requiredUnless_noComma (c : List Step) (f p : String) (A : List String)
    (h : jsSplitFirst p ',' = none) :
    applyParamRule c f "required_unless" p A = c := by
  have e : applyParamRule c f "required_unless" p A =
      (match jsSplitFirst p ',' with
       | none => c
       | some (o, rv) =>
         c ++ [Step.check (Check.custom (CustomPred.requiredUnless o rv))
           (f ++ " is required unless " ++ o ++ " is " ++ rv)]) := rfl
  rw [e, h]

theorem applyParamRule_prohibitedIf_noComma (c : List Step) (f p : String) (A : List String)
    (h : jsSplitFirst p ',' = none) :
    applyParamRule c f "prohibited_if" p A = c := by
  have e : applyParamRule c f "prohibited_if" p A =
      (match jsSplitFirst p ',' with
       | none => c
       | some (o, rv) =>
         c ++ [Step.check (Check.custom (CustomPred.prohibitedIf o rv))
           (f ++ " is not allowed when " ++ o ++ " is " ++ rv)]) := rfl
  rw [e, h]

theorem compileField_list_split (f : String) (items : List RuleItem) :
    compileField f (RuleSpec.list items) =
      (strTokens items).foldl (applyRuleToken f (strTokens items)) [] ++
        (customFns items).map mkCustomStep := by
  show (customFns items).foldl (fun c p => c ++ [mkCustomStep p])
      ((strTokens items).foldl (applyRuleToken f (strTokens items)) []) = _
  exact foldl_mkCustomStep _ _

theorem compileField_list_map (f : String) (toks : List String) :
    compileField f (RuleSpec.list (toks.map RuleItem.str)) =
      toks.foldl (applyRuleToken f toks) [] := by
  rw [compileField_list_split, strTokens_map_str, customFns_map_str]
  simp

/-- Is this rule item a plain string token? -/
def RuleItem.isStr : RuleItem → Bool
  | RuleItem.str _ => true
  | RuleItem.custom _ => false

theorem strTokens_append (a b : List RuleItem) :
    strTokens (a ++ b) = strTokens a ++ strTokens b := by
  induction a with
  | nil => rfl
  | cons x l ih => cases x <;> simp [strTokens, ih]

theorem customFns_append (a b : List RuleItem) :
    customFns (a ++ b) = customFns a ++ customFns b := by
  induction a with
  | nil => rfl
  | cons x l ih => cases x <;> simp [customFns, ih]

theorem strTokens_filter_str (items : List RuleItem) :
    strTokens (items.filter (fun r => r.isStr)) = strTokens items := by
  induction items with
  | nil => rfl
  | cons x l ih =>
    cases x with
    | str s =>
      rw [show List.filter (fun r => r.isStr) (RuleItem.str s :: l) =
          RuleItem.str s :: List.filter (fun r => r.isStr) l from rfl]
      simpa [strTokens] using ih
    | custom p =>
      rw [show List.filter (fun r => r.isStr) (RuleItem.custom p :: l) =
          List.filter (fun r => r.isStr) l from rfl]
      simpa [strTokens] using ih

theorem strTokens_filter_not (items : List RuleItem) :
    strTokens (items.filter (fun r => ! r.isStr)) = [] := by
  induction items with
  | nil => rfl
  | cons x l ih =>
    cases x with
    | str s =>
      rw [show List.filter (fun r => ! r.isStr) (RuleItem.str s :: l) =
          List.filter (fun r => ! r.isStr) l from rfl]
      exact ih
    | custom p =>
      rw [show List.filter (fun r => ! r.isStr) (RuleItem.custom p :: l) =
          RuleItem.custom p :: List.filter (fun r => ! r.isStr) l from rfl]
      simpa [strTokens] using ih

theorem customFns_filter_str (items : List RuleItem) :
    customFns (items.filter (fun r => r.isStr)) = [] := by
  induction items with
  | nil => rfl
  | cons x l ih =>
    cases x with
    | str s =>
      rw [show List.filter (fun r => r.isStr) (RuleItem.str s :: l) =
          RuleItem.str s :: List.filter (fun r => r.isStr) l from rfl]
      simpa [customFns] using ih
    | custom p =>
      rw [show List.filter (fun r => r.isStr) (RuleItem.custom p :: l) =
          List.filter (fun r => r.isStr) l from rfl]
      exact ih

theorem customFns_filter_not (items : List RuleItem) :
    customFns (items.filter (fun r => ! r.isStr)) = customFns items := by
  induction items with
  | nil => rfl
  | cons x l ih =>
    cases x with
    | str s =>
      rw [show List.filter (fun r => ! r.isStr) (RuleItem.str s :: l) =
          List.filter (fun r => ! r.isStr) l from rfl]
      simpa [customFns] using ih
    | custom p =>
      rw [show List.filter (fun r => ! r.isStr) (RuleItem.custom p :: l) =
          RuleItem.custom p :: List.filter (fun r => ! r.isStr) l from rfl]
      simpa [customFns] using ih

theorem deepCleanFields_keys (fields : List (String × JVal)) :
    (deepCleanFields fields).map Prod.fst = fields.map Prod.fst := by
  induction fields with
  | nil => rfl
  | cons kv l ih =>
    cases kv
    simp [deepCleanFields, ih]

theorem deepCleanList_length (items : List JVal) :
    (deepCleanList items).length = items.length := by
  induction items with
  | nil => rfl
  | cons x l ih => simp [deepCleanList, ih]

/-! ## Claims -/

/-- C3: a `required_if`, `required_unless`, or `prohibited_if` rule whose
parameter string contains no comma compiles to a no-op: the chain is
returned unchanged, and a configuration consisting of such a rule passes
every record unchanged (no error is ever raised). -/
theorem malformed_crossfield_noop (c : List Step) (f p : String) (A : List String)
    (h : jsSplitFirst p ',' = none) :
    (applyParamRule c f "required_if" p A = c ∧
     applyParamRule c f "required_unless" p A = c ∧
     applyParamRule c f "prohibited_if" p A = c) ∧
    ∀ rec : Record,
      runAll (makeValidators [(f, RuleSpec.list [RuleItem.str ("required_if:" ++ p)])]) rec
        = ([], rec) := by
  refine ⟨⟨applyParamRule_requiredIf_noComma c f p A h,
    applyParamRule_requiredUnless_noComma c f p A h,
    applyParamRule_prohibitedIf_noComma c f p A h⟩, ?_⟩
  intro rec
  have hchain : compileField f (RuleSpec.list [RuleItem.str ("required_if:" ++ p)]) = [] := by
    show compileField f (RuleSpec.list (["required_if:" ++ p].map RuleItem.str)) = []
    rw [compileField_list_map]
    rw [List.foldl_cons]
    show List.foldl (applyRuleToken f ["required_if:" ++ p])
      (applyRuleToken f ["required_if:" ++ p] [] ("required_if:" ++ p)) [] = []
    rw [show applyRuleToken f ["required_if:" ++ p] [] ("required_if:" ++ p) =
        applyParamRule [] f "required_if" p ["required_if:" ++ p] from by
      unfold applyRuleToken
      rw [jsSplitFirst_requiredIf p]]
    rw [applyParamRule_requiredIf_noComma [] f p _ h]
    rfl
  show runAll [(f, compileField f (RuleSpec.list [RuleItem.str ("required_if:" ++ p)]))] rec
      = ([], rec)
  rw [hchain]
  rfl

/-- Witness for C3 at a concrete malformed rule: `required_if:role` (no
comma) is compiled away entirely and a record passes unchanged. -/
theorem malformed_crossfield_noop_witness :
    (applyParamRule [] "taxId" "required_if" "role" [] = [] ∧
     applyParamRule [] "taxId" "required_unless" "role" [] = [] ∧
     applyParamRule [] "taxId" "prohibited_if" "role" [] = []) ∧
    runAll (makeValidators
        [("taxId", RuleSpec.list [RuleItem.str ("required_if:" ++ "role")])])
        [("role", Value.str "editor")]
      = ([], [("role", Value.str "editor")]) := by
  have h := malformed_crossfield_noop [] "taxId" "role" [] (by decide)
  exact ⟨h.1, h.2 [("role", Value.str "editor")]⟩

/-- C4: a rule token without `:` whose name is not a known basic rule is
silently ignored: the per-token dispatch returns the chain unchanged, and
the compiled chain of a field list containing the token is exactly the
chain compiled without it. -/
theorem unknown_basic_rule_ignored (f rule : String) (l₁ l₂ : List String)
    (hcolon : jsSplitFirst rule ':' = none) (hbasic : basicValidators rule = none) :
    compileField f (RuleSpec.list ((l₁ ++ rule :: l₂).map RuleItem.str)) =
      compileField f (RuleSpec.list ((l₁ ++ l₂).map RuleItem.str)) ∧
    ∀ (A : List String) (c : List Step), applyRuleToken f A c rule = c := by
  have htok : ∀ (A : List String) (c : List Step), applyRuleToken f A c rule = c := by
    intro A c
    unfold applyRuleToken
    rw [hcolon, hbasic]
  refine ⟨?_, htok⟩
  rw [compileField_list_map, compileField_list_map]
  have hru : rule ≠ "integer" := by
    intro he
    rw [he] at hbasic
    have hS : (basicValidators "integer").isSome = true := rfl
    rw [hbasic] at hS
    simp at hS
  have hrn : rule ≠ "numeric" := by
    intro he
    rw [he] at hbasic
    have hS : (basicValidators "numeric").isSome = true := rfl
    rw [hbasic] at hS
    simp at hS
  have hi : includes (l₁ ++ rule :: l₂) "integer" = includes (l₁ ++ l₂) "integer" :=
    includes_middle l₁ l₂ rule "integer" hru
  have hn : includes (l₁ ++ rule :: l₂) "numeric" = includes (l₁ ++ l₂) "numeric" :=
    includes_middle l₁ l₂ rule "numeric" hrn
  rw [List.foldl_append, List.foldl_append, List.foldl_cons, htok]
  rw [foldl_applyRuleToken_congr f (l₁ ++ rule :: l₂) (l₁ ++ l₂) hi hn l₁ []]
  rw [foldl_applyRuleToken_congr f (l₁ ++ rule :: l₂) (l₁ ++ l₂) hi hn l₂ _]

/-- Witness for C4: the unknown token `frobnicate` between `required` and
`string` compiles to the same chain as without it. -/
theorem unknown_basic_rule_ignored_witness :
    compileField "name" (RuleSpec.list ((["required"] ++ "frobnicate" :: ["string"]).map
      RuleItem.str)) =
      compileField "name" (RuleSpec.list ((["required"] ++ ["string"]).map RuleItem.str)) ∧
    ∀ (A : List String) (c : List Step), applyRuleToken "name" A c "frobnicate" = c := by
  have h := unknown_basic_rule_ignored "name" "frobnicate" ["required"] ["string"]
    (by decide) (by rfl)
  exact h

/-- C5: the `default:v` rule compiles to a single custom sanitizer; that
sanitizer substitutes the literal exactly on `undefined`, `null`, and the
empty string and leaves every other value unchanged; on the README
configuration, omitting `nickname` under `default:Guest` yields a record
containing `nickname = "Guest"` and no error. -/
theorem default_rule_transform :
    (∀ (c : List Step) (f v : String) (A : List String),
      applyParamRule c f "default" v A = c ++ [Step.sanitizeStep (Sanitizer.defaultTo v)]) ∧
    (∀ (v : String) (x : Value),
      evalSan (Sanitizer.defaultTo v) x =
        if x = Value.undef ∨ x = Value.null ∨ x = Value.str "" then Value.str v else x) ∧
    runAll (makeValidators [("nickname", RuleSpec.str "default:Guest")]) [] =
      ([], [("nickname", Value.str "Guest")]) := by
  refine ⟨?_, ?_, ?_⟩
  · intro c f v A
    rfl
  · intro v x
    rfl
  · decide

/-- C9: a parameterized rule token whose tag is none of the recognized
eleven parameterized rules leaves the chain unchanged (the same lenient
policy as for unknown basic rules). -/
theorem unknown_param_rule_ignored (c : List Step) (f r p : String) (A : List String)
    (h1 : r ≠ "min") (h2 : r ≠ "max") (h3 : r ≠ "length") (h4 : r ≠ "between")
    (h5 : r ≠ "in") (h6 : r ≠ "regex") (h7 : r ≠ "same") (h8 : r ≠ "default")
    (h9 : r ≠ "required_if") (h10 : r ≠ "required_unless") (h11 : r ≠ "prohibited_if") :
    applyParamRule c f r p A = c := by
  unfold applyParamRule
  rw [if_neg h1, if_neg h2, if_neg h3, if_neg h4, if_neg h5, if_neg h6, if_neg h7,
    if_neg h8, if_neg h9, if_neg h10, if_neg h11]

/-- Witness for C9: the unrecognized parameterized tag `frob` (as in a
token `frob:x`) leaves an example chain unchanged. -/
theorem unknown_param_rule_ignored_witness :
    applyParamRule [Step.bailStep] "f" "frob" "x" ["frob:x"] = [Step.bailStep] :=
  unknown_param_rule_ignored [Step.bailStep] "f" "frob" "x" ["frob:x"]
    (by decide) (by decide) (by decide) (by decide) (by decide) (by decide)
    (by decide) (by decide) (by decide) (by decide) (by decide)

/-- C6: for sequence-form rule specifications, the compiled chain is the
string-token compilation followed by the custom predicates in their
original relative order; in particular the chain is invariant under
moving all custom-predicate descriptors to the end of the sequence. -/
theorem custom_predicates_after_string_rules (f : String) (items : List RuleItem) :
    compileField f (RuleSpec.list items) =
      (strTokens items).foldl (applyRuleToken f (strTokens items)) [] ++
        (customFns items).map mkCustomStep ∧
    compileField f (RuleSpec.list items) =
      compileField f (RuleSpec.list
        (items.filter (fun r => r.isStr) ++ items.filter (fun r => ! r.isStr))) := by
  refine ⟨compileField_list_split f items, ?_⟩
  have hS : strTokens (items.filter (fun r => r.isStr) ++ items.filter (fun r => ! r.isStr))
      = strTokens items := by
    rw [strTokens_append, strTokens_filter_str, strTokens_filter_not, List.append_nil]
  have hC : customFns (items.filter (fun r => r.isStr) ++ items.filter (fun r => ! r.isStr))
      = customFns items := by
    rw [customFns_append, customFns_filter_str, customFns_filter_not, List.nil_append]
  rw [compileField_list_split, compileField_list_split, hS, hC]

/-- C7: the sanitizer's concrete input/output equations —
`javascript:` links and inline handlers are removed entirely, tags are
stripped around text, and `deepClean` rebuilds nested objects with the
same shape and keys (shown both on the concrete example and in general
for object keys and array lengths). -/
theorem sanitizer_roundtrip_examples :
    clean "javascript:alert(1)" = "" ∧
    clean " onclick=\"alert(1)\" " = "" ∧
    clean "<b>John</b>" = "John" ∧
    deepClean (JVal.jobj [("a", JVal.jobj [("b", JVal.jstr "<i>x</i>")])]) =
      JVal.jobj [("a", JVal.jobj [("b", JVal.jstr "x")])] ∧
    (∀ fields : List (String × JVal),
      (deepCleanFields fields).map Prod.fst = fields.map Prod.fst) ∧
    (∀ items : List JVal, (deepCleanList items).length = items.length) := by
  refine ⟨by decide, by decide, by decide, ?_, deepCleanFields_keys, deepCleanList_length⟩
  rfl

theorem runChain_none (f : String) (steps : List Step) (rec : Record)
    (hflag : optionalFlag steps = none) :
    runChain f steps rec =
      ((steps.foldl (runStep false rec) (ChainState.mk (getField rec f) [] false false)).errors,
       if (steps.foldl (runStep false rec)
           (ChainState.mk (getField rec f) [] false false)).mutated then
         setField rec f
           (steps.foldl (runStep false rec) (ChainState.mk (getField rec f) [] false false)).value
       else rec) := by
  unfold runChain
  rw [hflag]

theorem runAll_single (f : String) (steps : List Step) (rec : Record) :
    runAll [(f, steps)] rec = ((runChain f steps rec).1, (runChain f steps rec).2) := by
  unfold runAll
  rw [List.foldl_cons, List.foldl_nil]
  simp

/-- Counterexample for C2 as stated: with rules `string|required`, a
missing field produces two messages (the `string` check runs before
`required` and is not skipped), and with rules `required|optional` a
missing field is accepted outright — so "exactly one message and overall
rejection" does not hold for every field tagged `required`. -/
theorem required_single_message_cex :
    ¬ ((runAll (makeValidators [("a", RuleSpec.str "string|required")]) []).1
        = ["a is required"]) ∧
    (runAll (makeValidators [("a", RuleSpec.str "string|required")]) []).1
      = ["a must be a string", "a is required"] ∧
    validate (runAll (makeValidators [("b", RuleSpec.str "required|optional")]) []).1
      = Outcome.next := by
  refine ⟨by decide, by decide, by decide⟩

/-- C2 (amended): for every field whose rule list starts with `required`
and contains neither `optional` nor `nullable`, validating a record in
which the field is missing or the empty string produces exactly the one
message `"<field> is required"` (the `bail()` after the `required` check
skips the rest of the chain), and the outcome is a 422 rejection. -/
theorem required_first_single_message (f : String) (rest : List String) (rec : Record)
    (hopt : "optional" ∉ rest) (hnul : "nullable" ∉ rest)
    (hv : getField rec f = Value.undef ∨ getField rec f = Value.str "") :
    (runAll (makeValidators
        [(f, RuleSpec.list (("required" :: rest).map RuleItem.str))]) rec).1
      = [f ++ " is required"] ∧
    validate (runAll (makeValidators
        [(f, RuleSpec.list (("required" :: rest).map RuleItem.str))]) rec).1
      = Outcome.reject 422 [f ++ " is required"] := by
  have hv' : evToString (getField rec f) = "" := by
    rcases hv with h | h <;> rw [h] <;> rfl
  obtain ⟨e, he, hne⟩ : ∃ e,
      compileField f (RuleSpec.list (("required" :: rest).map RuleItem.str)) =
        [Step.check Check.notEmpty (f ++ " is required"), Step.bailStep] ++ e ∧
      noOpt e = true := by
    rw [compileField_list_map, List.foldl_cons]
    rw [show applyRuleToken f ("required" :: rest) [] "required" =
        [Step.check Check.notEmpty (f ++ " is required"), Step.bailStep] from rfl]
    exact foldl_applyRuleToken_extra f ("required" :: rest) rest hopt hnul _
  have hflag : optionalFlag
      ([Step.check Check.notEmpty (f ++ " is required"), Step.bailStep] ++ e) = none :=
    optionalFlag_eq_none _ (noOpt_append _ e rfl hne)
  have s1 : runStep false rec (ChainState.mk (getField rec f) [] false false)
      (Step.check Check.notEmpty (f ++ " is required"))
      = ChainState.mk (getField rec f) [f ++ " is required"] false false := by
    unfold runStep
    simp [evalCheck, hv']
    decide
  have s12 : List.foldl (runStep false rec) (ChainState.mk (getField rec f) [] false false)
      [Step.check Check.notEmpty (f ++ " is required"), Step.bailStep]
      = ChainState.mk (getField rec f) [f ++ " is required"] true false := by
    rw [List.foldl_cons, s1, List.foldl_cons, List.foldl_nil]
    rfl
  have hfold : ([Step.check Check.notEmpty (f ++ " is required"), Step.bailStep] ++ e).foldl
      (runStep false rec) (ChainState.mk (getField rec f) [] false false)
      = ChainState.mk (getField rec f) [f ++ " is required"] true false := by
    rw [List.foldl_append, s12]
    exact foldl_runStep_bailed false rec e _ rfl
  have hchainrun : runChain f
      ([Step.check Check.notEmpty (f ++ " is required"), Step.bailStep] ++ e) rec
      = ([f ++ " is required"], rec) := by
    rw [runChain_none f _ rec hflag, hfold]
    rfl
  have hfinal : (runAll (makeValidators
      [(f, RuleSpec.list (("required" :: rest).map RuleItem.str))]) rec).1
      = [f ++ " is required"] := by
    rw [show makeValidators [(f, RuleSpec.list (("required" :: rest).map RuleItem.str))] =
        [(f, compileField f (RuleSpec.list (("required" :: rest).map RuleItem.str)))] from rfl]
    rw [he, runAll_single, hchainrun]
  exact ⟨hfinal, by rw [hfinal]; rfl⟩

/-- Witness for C2 (amended) at the configuration
`name: required, string` and the empty record. -/
theorem required_first_single_message_witness :
    (runAll (makeValidators
        [("name", RuleSpec.list (("required" :: ["string"]).map RuleItem.str))]) []).1
      = ["name" ++ " is required"] ∧
    validate (runAll (makeValidators
        [("name", RuleSpec.list (("required" :: ["string"]).map RuleItem.str))]) []).1
      = Outcome.reject 422 ["name" ++ " is required"] :=
  required_first_single_message "name" ["string"] [] (by decide) (by decide) (Or.inl rfl)

/-- C10: the `in:v1,v2,...` rule compiles to a `.trim()` sanitizer
followed by the membership predicate on the trimmed value, so any record
whose field equals an allowed literal after trimming passes, and the
record's stored value is mutated in place to the trimmed string. -/
theorem in_rule_trims_and_mutates (f params s : String) (rec : Record)
    (hval : getField rec f = Value.str s)
    (hin : includes ((jsSplit params ',').map trimStr) (trimStr s) = true) :
    (∀ (c : List Step) (A : List String),
      applyParamRule c f "in" params A =
        c ++ [Step.sanitizeStep Sanitizer.trimSan,
          Step.check (Check.custom (CustomPred.inList ((jsSplit params ',').map trimStr)))
            (f ++ " must be one of: " ++ joinSep ", " ((jsSplit params ',').map trimStr))]) ∧
    runAll (makeValidators [(f, RuleSpec.list [RuleItem.str ("in:" ++ params)])]) rec =
      ([], setField rec f (Value.str (trimStr s))) := by
  refine ⟨fun c A => rfl, ?_⟩
  have hchain : compileField f (RuleSpec.list [RuleItem.str ("in:" ++ params)]) =
      [Step.sanitizeStep Sanitizer.trimSan,
       Step.check (Check.custom (CustomPred.inList ((jsSplit params ',').map trimStr)))
         (f ++ " must be one of: " ++ joinSep ", " ((jsSplit params ',').map trimStr))] := by
    show compileField f (RuleSpec.list (["in:" ++ params].map RuleItem.str)) = _
    rw [compileField_list_map, List.foldl_cons]
    rw [show applyRuleToken f ["in:" ++ params] [] ("in:" ++ params) =
        applyParamRule [] f "in" params ["in:" ++ params] from by
      unfold applyRuleToken
      rw [jsSplitFirst_inRule params]]
    rw [List.foldl_nil]
    rfl
  rw [show makeValidators [(f, RuleSpec.list [RuleItem.str ("in:" ++ params)])] =
      [(f, compileField f (RuleSpec.list [RuleItem.str ("in:" ++ params)]))] from rfl]
  rw [hchain, runAll_single]
  have hflag : optionalFlag [Step.sanitizeStep Sanitizer.trimSan,
      Step.check (Check.custom (CustomPred.inList ((jsSplit params ',').map trimStr)))
        (f ++ " must be one of: " ++ joinSep ", " ((jsSplit params ',').map trimStr))] =
      none := rfl
  rw [runChain_none f _ rec hflag]
  have st1 : runStep false rec (ChainState.mk (getField rec f) [] false false)
      (Step.sanitizeStep Sanitizer.trimSan)
      = ChainState.mk (Value.str (trimStr s)) [] false true := by
    rw [hval]
    rfl
  have st2 : runStep false rec (ChainState.mk (Value.str (trimStr s)) [] false true)
      (Step.check (Check.custom (CustomPred.inList ((jsSplit params ',').map trimStr)))
        (f ++ " must be one of: " ++ joinSep ", " ((jsSplit params ',').map trimStr)))
      = ChainState.mk (Value.str (trimStr s)) [] false true := by
    have hc : evalCheck (Check.custom (CustomPred.inList ((jsSplit params ',').map trimStr)))
        (Value.str (trimStr s)) rec = true := by
      show includes ((jsSplit params ',').map trimStr)
        (trimStr (jsString (Value.str (trimStr s)))) = true
      rw [show jsString (Value.str (trimStr s)) = trimStr s from rfl, trimStr_idem]
      exact hin
    unfold runStep
    simp [hc]
  rw [List.foldl_cons, st1, List.foldl_cons, st2, List.foldl_nil]
  rfl

/-- Witness for C10: `role` with rule `in:admin,user` and the value
`"  admin "` passes and is stored back trimmed to `"admin"`. -/
theorem in_rule_trims_and_mutates_witness :
    runAll (makeValidators [("role", RuleSpec.list [RuleItem.str ("in:" ++ "admin,user")])])
        [("role", Value.str "  admin ")]
      = ([], setField [("role", Value.str "  admin ")] "role"
          (Value.str (trimStr "  admin "))) :=
  (in_rule_trims_and_mutates "role" "admin,user" "  admin "
    [("role", Value.str "  admin ")] (by decide) (by decide)).2

/-- C1: `min`/`max`/`between` compile to numeric value comparisons (with
the value-form messages) exactly when the field's full token list
contains `integer` or `numeric`, and to string-length comparisons (with
messages ending in " characters") otherwise; the choice depends only on
membership in the full list — it is invariant under permuting the token
list, and concretely the same chain checks are produced whether
`integer` appears before or after `min:18`. -/
theorem min_max_between_semantic_resolution (c : List Step) (f p : String)
    (A : List String) :
    ((includes A "integer" || includes A "numeric") = true →
      applyParamRule c f "min" p A =
        c ++ [Step.check (Check.isFloatMin (parseIntTS p))
          (f ++ " must be at least " ++ jsNumStr (parseIntTS p))] ∧
      applyParamRule c f "max" p A =
        c ++ [Step.check (Check.isFloatMax (parseIntTS p))
          (f ++ " must be at most " ++ jsNumStr (parseIntTS p))] ∧
      applyParamRule c f "between" p A =
        c ++ [Step.check
          (Check.isFloatBetween (numAt (jsSplit p ',') 0) (numAt (jsSplit p ',') 1))
          (f ++ " must be between " ++ jsNumStr (numAt (jsSplit p ',') 0) ++ " and " ++
            jsNumStr (numAt (jsSplit p ',') 1))]) ∧
    ((includes A "integer" || includes A "numeric") = false →
      applyParamRule c f "min" p A =
        c ++ [Step.check (Check.isLengthMin (parseIntTS p))
          (f ++ " must be at least " ++ jsNumStr (parseIntTS p) ++ " characters")] ∧
      applyParamRule c f "max" p A =
        c ++ [Step.check (Check.isLengthMax (parseIntTS p))
          (f ++ " must be at most " ++ jsNumStr (parseIntTS p) ++ " characters")] ∧
      applyParamRule c f "between" p A =
        c ++ [Step.check
          (Check.isLengthBetween (numAt (jsSplit p ',') 0) (numAt (jsSplit p ',') 1))
          (f ++ " must be between " ++ jsNumStr (numAt (jsSplit p ',') 0) ++ " and " ++
            jsNumStr (numAt (jsSplit p ',') 1) ++ " characters")]) ∧
    (∀ B : List String, A.Perm B →
      applyParamRule c f "min" p A = applyParamRule c f "min" p B ∧
      applyParamRule c f "max" p A = applyParamRule c f "max" p B ∧
      applyParamRule c f "between" p A = applyParamRule c f "between" p B) ∧
    compileField "age" (RuleSpec.list (["integer", "min:18"].map RuleItem.str)) =
      [Step.check Check.isInt "age must be an integer",
       Step.check (Check.isFloatMin (JSNum.val 18)) "age must be at least 18"] ∧
    compileField "age" (RuleSpec.list (["min:18", "integer"].map RuleItem.str)) =
      [Step.check (Check.isFloatMin (JSNum.val 18)) "age must be at least 18",
       Step.check Check.isInt "age must be an integer"] := by
  have emin : applyParamRule c f "min" p A =
      (if (includes A "integer" || includes A "numeric") = true then
        c ++ [Step.check (Check.isFloatMin (parseIntTS p))
          (f ++ " must be at least " ++ jsNumStr (parseIntTS p))]
      else
        c ++ [Step.check (Check.isLengthMin (parseIntTS p))
          (f ++ " must be at least " ++ jsNumStr (parseIntTS p) ++ " characters")]) := rfl
  have emax : applyParamRule c f "max" p A =
      (if (includes A "integer" || includes A "numeric") = true then
        c ++ [Step.check (Check.isFloatMax (parseIntTS p))
          (f ++ " must be at most " ++ jsNumStr (parseIntTS p))]
      else
        c ++ [Step.check (Check.isLengthMax (parseIntTS p))
          (f ++ " must be at most " ++ jsNumStr (parseIntTS p) ++ " characters")]) := rfl
  have ebet : applyParamRule c f "between" p A =
      (if (includes A "integer" || includes A "numeric") = true then
        c ++ [Step.check
          (Check.isFloatBetween (numAt (jsSplit p ',') 0) (numAt (jsSplit p ',') 1))
          (f ++ " must be between " ++ jsNumStr (numAt (jsSplit p ',') 0) ++ " and " ++
            jsNumStr (numAt (jsSplit p ',') 1))]
      else
        c ++ [Step.check
          (Check.isLengthBetween (numAt (jsSplit p ',') 0) (numAt (jsSplit p ',') 1))
          (f ++ " must be between " ++ jsNumStr (numAt (jsSplit p ',') 0) ++ " and " ++
            jsNumStr (numAt (jsSplit p ',') 1) ++ " characters")]) := rfl
  refine ⟨?_, ?_, ?_, ?_, ?_⟩
  · intro h
    exact ⟨by rw [emin, if_pos h], by rw [emax, if_pos h], by rw [ebet, if_pos h]⟩
  · intro h
    have hne : ¬ ((includes A "integer" || includes A "numeric") = true) := by simp [h]
    exact ⟨by rw [emin, if_neg hne], by rw [emax, if_neg hne], by rw [ebet, if_neg hne]⟩
  · intro B hp
    have hi := includes_congr_of_perm A B hp "integer"
    have hn := includes_congr_of_perm A B hp "numeric"
    exact ⟨applyParamRule_congr c f "min" p A B hi hn,
      applyParamRule_congr c f "max" p A B hi hn,
      applyParamRule_congr c f "between" p A B hi hn⟩
  · rfl
  · rfl

/-- Witness for C1: `min:18` next to `integer` compiles to the numeric
check, `min:3` without numeric tags compiles to the length check, and
`between:18,65` compiles identically whether `integer` comes first or
last. -/
theorem min_max_between_semantic_resolution_witness :
    applyParamRule [] "age" "min" "18" ["integer", "min:18"] =
      [] ++ [Step.check (Check.isFloatMin (parseIntTS "18"))
        ("age" ++ " must be at least " ++ jsNumStr (parseIntTS "18"))] ∧
    applyParamRule [] "name" "min" "3" ["required", "string", "min:3"] =
      [] ++ [Step.check (Check.isLengthMin (parseIntTS "3"))
        ("name" ++ " must be at least " ++ jsNumStr (parseIntTS "3") ++ " characters")] ∧
    applyParamRule [] "age" "between" "18,65" ["integer", "between:18,65"] =
      applyParamRule [] "age" "between" "18,65" ["between:18,65", "integer"] := by
  refine ⟨((min_max_between_semantic_resolution [] "age" "18" ["integer", "min:18"]).1
      (by decide)).1,
    ((min_max_between_semantic_resolution [] "name" "3"
      ["required", "string", "min:3"]).2.1 (by decide)).1, ?_⟩
  exact ((min_max_between_semantic_resolution [] "age" "18,65"
    ["integer", "between:18,65"]).2.2.1 ["between:18,65", "integer"]
    (List.Perm.swap "between:18,65" "integer" [])).2.2

/-- Counterexample for C8 as stated: one pass of `clean` over
`"<<script>script>"` does not leave `"<script>"` — the leftmost greedy
tag match consumes `"<<script>"` in one span. -/
theorem single_pass_tag_strip_cex : clean "<<script>script>" ≠ "<script>" := by decide

/-- C8 (amended): the tag stripping is single-pass, and on
`"<<script>script>"` the single leftmost greedy match removes
`"<<script>"`, leaving the residual `"script>"`; on this input a second
pass changes nothing. -/
theorem single_pass_tag_strip_residual :
    clean "<<script>script>" = "script>" ∧
    clean (clean "<<script>script>") = clean "<<script>script>" := by
  exact ⟨by decide, by decide⟩

end PSchema
